import Mathlib

/-!
# trim_isoseq_polyA: the driver `src/HMM/main.cpp`

A shallow embedding of the driver of the polyA trimmer: the scan loop that turns
a decoded state path into a trim length, the per-record output of `trimPolyA`,
the header rewriting of `printHeader`, the default parameters written by
`setDefaultHMM`, and the model-selection logic of `main`.

Strings are lists of characters.  The HMM engine (`polyA_hmm_model.hpp`), the
FASTA reader (`fasta.hpp`) and the colour escapes (`kernel_color.h`) are not part
of the driver; what the driver needs from them is either passed in as an
argument or modelled from the specification, and marked as such.
-/

set_option autoImplicit false

namespace TrimPolyA

/-! ## Data model -/

/-- Modelled from the spec: the enumeration `PolyAHmmMode::States` of the missing
header `polyA_hmm_model.hpp`, a closed set of two states, `POLYA` being the
lower-indexed one. -/
inductive States where
  | POLYA
  | NONPOLYA
  deriving DecidableEq, Repr

open States

/-- Modelled from the spec: the table `to_idx` of the missing header, mapping the
four nucleotide letters to the dense indices 0..3. -/
def to_idx (c : Char) : Nat :=
  if c = 'A' then 0 else if c = 'C' then 1 else if c = 'G' then 2 else if c = 'T' then 3 else 4

/-- Modelled from the spec: the Parameter Store `PolyAHmmMode` of the missing
header, three probability tables reached through the accessors `initialProb`,
`transProb` and `emitProb`.  Decimal literals are read as exact rationals. -/
structure PolyAHmmMode where
  initialProb : States → ℚ
  transProb : States → States → ℚ
  emitProb : States → Nat → ℚ

/-- Assignment `hmm.initialProb(s) = v`. -/
def PolyAHmmMode.setInitial (hmm : PolyAHmmMode) (s : States) (v : ℚ) : PolyAHmmMode :=
  { hmm with initialProb := fun s' => if s' = s then v else hmm.initialProb s' }

/-- Assignment `hmm.transProb(i, j) = v`. -/
def PolyAHmmMode.setTrans (hmm : PolyAHmmMode) (i j : States) (v : ℚ) : PolyAHmmMode :=
  { hmm with transProb := fun i' j' => if i' = i ∧ j' = j then v else hmm.transProb i' j' }

/-- Assignment `hmm.emitProb(s, k) = v`. -/
def PolyAHmmMode.setEmit (hmm : PolyAHmmMode) (s : States) (k : Nat) (v : ℚ) : PolyAHmmMode :=
  { hmm with emitProb := fun s' k' => if s' = s ∧ k' = k then v else hmm.emitProb s' k' }

/-- The function `setDefaultHMM` (main.cpp lines 121-139): fourteen writes in
source order; the two self-transition entries are computed from the entries
written just before them. -/
def setDefaultHMM (hmm : PolyAHmmMode) : PolyAHmmMode :=
  let h1 := hmm.setInitial POLYA 0.99283668
  let h2 := h1.setInitial NONPOLYA 0.00716332
  let h3 := h2.setTrans POLYA NONPOLYA 3.16493e-07
  let h4 := h3.setTrans POLYA POLYA (1.0 - h3.transProb POLYA NONPOLYA)
  let h5 := h4.setTrans NONPOLYA POLYA 2.74842e-09
  let h6 := h5.setTrans NONPOLYA NONPOLYA (1.0 - h5.transProb NONPOLYA POLYA)
  let h7 := h6.setEmit POLYA (to_idx 'A') 0.928165
  let h8 := h7.setEmit POLYA (to_idx 'C') 0.025917
  let h9 := h8.setEmit POLYA (to_idx 'G') 0.024170
  let h10 := h9.setEmit POLYA (to_idx 'T') 0.021748
  let h11 := h10.setEmit NONPOLYA (to_idx 'A') 0.271806
  let h12 := h11.setEmit NONPOLYA (to_idx 'C') 0.249539
  let h13 := h12.setEmit NONPOLYA (to_idx 'G') 0.281787
  h13.setEmit NONPOLYA (to_idx 'T') 0.196867

/-- Sum of one emission row over the four symbols. -/
def emitRowSum (hmm : PolyAHmmMode) (s : States) : ℚ :=
  hmm.emitProb s (to_idx 'A') + hmm.emitProb s (to_idx 'C')
    + hmm.emitProb s (to_idx 'G') + hmm.emitProb s (to_idx 'T')

/-! ## The scan loop of `trimPolyA` -/

/-- The loop `for (polyalen = 0; polyalen < path.size(); ++polyalen)` of
main.cpp lines 148-152, started at an arbitrary counter value.  The first
argument bounds the number of iterations. -/
def scanLoop (path : List States) : Nat → Nat → Nat
  | 0, polyalen => polyalen
  | fuel + 1, polyalen =>
    if polyalen < path.length then
      if path[polyalen]? = some NONPOLYA then polyalen
      else scanLoop path fuel (polyalen + 1)
    else polyalen

/-- The value of `polyalen` after the scan loop: the counter starts at 0 and the
loop runs at most `path.size()` times. -/
def trimLength (path : List States) : Nat :=
  scanLoop path path.length 0

/-! ## Machine arithmetic of `printHeader` -/

/-- Conversion of an integer value to the 32-bit `int` (two's complement wrap). -/
def toInt32 (z : Int) : Int := (z + 2 ^ 31) % 2 ^ 32 - 2 ^ 31

/-- Conversion of an integer value to the 64-bit `size_t`. -/
def toSizeT (z : Int) : Int := z % 2 ^ 64

/-- The compound assignment `end -= polyalen` with `int end` and
`size_t polyalen`: both operands are taken to `size_t`, the difference is
computed modulo 2^64 and converted back to `int`. -/
def subAssign (e : Int) (polyalen : Nat) : Int :=
  toInt32 ((toSizeT e - toSizeT polyalen) % 2 ^ 64)

/-- The compound assignment `end += polyalen`, computed the same way. -/
def addAssign (e : Int) (polyalen : Nat) : Int :=
  toInt32 ((toSizeT e + toSizeT polyalen) % 2 ^ 64)

/-- Lines 196-203 of `printHeader`: the pair `(start, end)` that reaches the final
`fprintf`, from the parsed pair and the trim length. -/
def updateCoords (start end_ : Int) (polyalen : Nat) : Int × Int :=
  if start < end_ then
    -- + strand, update end
    (start, subAssign end_ polyalen)
  else
    -- - strand, update start
    (start, addAssign end_ polyalen)

/-! ## Header parsing and printing -/

/-- A pointer scan `while (*l != c) ... l++` followed by one more increment: the
characters before the first `c` and the characters after it.  `none` when the
string holds no `c` (the scan leaves the string). -/
def scanTo (c : Char) : List Char → Option (List Char × List Char)
  | [] => none
  | x :: xs =>
    if x = c then some ([], xs)
    else match scanTo c xs with
      | none => none
      | some (pre, rest) => some (x :: pre, rest)

/-- Value of a run of decimal digits. -/
def digitsValue (ds : List Char) : Nat :=
  ds.foldl (fun acc c => 10 * acc + (c.toNat - '0'.toNat)) 0

/-- The library call `std::stod` on the decimal-integer fragment: an optional
sign, at least one decimal digit, and then the `_` that ends every substring
`printHeader` passes in.  Every other text (fractions, exponents, hexadecimal,
`inf`, `nan`, leading blanks, no digit at all) is outside this fragment and
gives `none`.  Among these, a text such as `x_`, with no digit and no start of a
fraction, `inf` or `nan`, is where the library call throws
`std::invalid_argument`. -/
def stod (cs : List Char) : Option Int :=
  let body := match cs with
    | '-' :: t => t
    | '+' :: t => t
    | _ => cs
  let neg := cs.head? = some '-'
  let ds := body.takeWhile Char.isDigit
  if ds = [] then none
  else match body.dropWhile Char.isDigit with
    | '_' :: _ => some (if neg then - (digitsValue ds : Int) else (digitsValue ds : Int))
    | _ => none

/-- The initialisation `int x = <double>` for an integral double: the value when
it fits the 32-bit `int`, undefined otherwise. -/
def doubleToInt (v : Int) : Option Int :=
  if - 2 ^ 31 ≤ v ∧ v < 2 ^ 31 then some v else none

/-- Lines 175-195 of `printHeader`: the movie name, the ZMW name and the two
coordinates read from `<movie>/<zmw>/<start>_<end>_...`.  Each number is read
from the substring that runs up to and including the next `_`. -/
def parseHeader (s : List Char) : Option (List Char × List Char × Int × Int) :=
  match scanTo '/' s with
  | none => none
  | some (movie, r1) =>
    match scanTo '/' r1 with
    | none => none
    | some (zmw, r2) =>
      match scanTo '_' r2 with
      | none => none
      | some (st, r3) =>
        match (stod (st ++ ['_'])).bind doubleToInt with
        | none => none
        | some start =>
          match scanTo '_' r3 with
          | none => none
          | some (en, _) =>
            match (stod (en ++ ['_'])).bind doubleToInt with
            | none => none
            | some end_ => some (movie, zmw, start, end_)

/-- The conversion `%d` of `fprintf`. -/
def fmtInt (z : Int) : List Char :=
  if z < 0 then '-' :: Nat.toDigits 10 z.natAbs else Nat.toDigits 10 z.natAbs

/-- The text written by `printHeader` for a movie name, a ZMW name and the two
final coordinates. -/
def renderHeader (movie zmw : List Char) (c : Int × Int) : List Char :=
  ['>'] ++ movie ++ ['/'] ++ zmw ++ ['/'] ++ fmtInt c.1 ++ ['_'] ++ fmtInt c.2
    ++ "_CCS\n".toList

/-- The function `printHeader` (main.cpp lines 170-205): the text written to
stdout, or `none` when the name does not have the Iso-Seq form (the scans leave
the string or `stod` throws). -/
def printHeader (s : List Char) (polyalen : Nat) : Option (List Char) :=
  match parseHeader s with
  | none => none
  | some (movie, zmw, start, end_) =>
    some (renderHeader movie zmw (updateCoords start end_ polyalen))

/-! ## One record of `trimPolyA` -/

/-- Modelled from the spec: a record of the missing reader `fasta.hpp`, exposing a
name and a symbol sequence. -/
structure FastaRecord where
  name_ : List Char
  seq_ : List Char

/-- Modelled from the spec: `fa.size()` of the missing reader, the number of
symbols of the record. -/
def FastaRecord.size (fa : FastaRecord) : Nat := fa.seq_.length

/-- The call `std::string::substr(pos, len)`. -/
def substr (s : List Char) (pos len : Nat) : List Char := (s.drop pos).take len

/-- The call `std::string::substr(pos)`. -/
def substrFrom (s : List Char) (pos : Nat) : List Char := s.drop pos

/-- What one loop iteration writes. -/
structure Output where
  err : List Char
  out : List Char
  deriving DecidableEq, Repr

/-- The line `fprintf(stderr, "%s\t%zu\n", ...)` of main.cpp line 153. -/
def stderrLine (name : List Char) (polyalen : Nat) : List Char :=
  name ++ ['\t'] ++ Nat.toDigits 10 polyalen ++ ['\n']

/-- The body of the record loop of `trimPolyA<showColor>` (main.cpp lines
147-165).  The decoder `calculateVirtabi` of the missing HMM engine and the two
colour escapes of the missing `kernel_color.h` are arguments; the decoder is
handed the reversed sequence.  `none` when `printHeader` fails. -/
def trimRecord (showColor : Bool) (KERNAL_RED KERNAL_RESET : List Char)
    (calculateVirtabi : List Char → List States) (fa : FastaRecord) : Option Output :=
  let path := calculateVirtabi fa.seq_.reverse
  let polyalen := trimLength path
  let err := stderrLine fa.name_ polyalen
  if polyalen < fa.size then
    match printHeader fa.name_ polyalen with
    | none => none
    | some hdr =>
      let coloured :=
        if showColor then
          substr fa.seq_ 0 (fa.seq_.length - polyalen) ++ KERNAL_RED
            ++ substrFrom fa.seq_ (fa.seq_.length - polyalen) ++ " \n".toList ++ KERNAL_RESET
        else []
      let plain :=
        if !showColor then substr fa.seq_ 0 (fa.seq_.length - polyalen) ++ ['\n']
        else []
      some ⟨err, hdr ++ coloured ++ plain⟩
  else some ⟨err, []⟩

/-- The function `trimPolyA<showColor>` over the records of the input file, in
order. -/
def trimPolyA (showColor : Bool) (KERNAL_RED KERNAL_RESET : List Char)
    (calculateVirtabi : List Char → List States) : List FastaRecord → Option Output
  | [] => some ⟨[], []⟩
  | fa :: rest =>
    match trimRecord showColor KERNAL_RED KERNAL_RESET calculateVirtabi fa with
    | none => none
    | some o =>
      match trimPolyA showColor KERNAL_RED KERNAL_RESET calculateVirtabi rest with
      | none => none
      | some o' => some ⟨o.err ++ o'.err, o.out ++ o'.out⟩

/-- A toy decoder for concrete runs: a position is `POLYA` exactly when its
symbol is `A`. -/
def labelByLetter (s : List Char) : List States :=
  s.map (fun c => if c = 'A' then POLYA else NONPOLYA)

/-- A record with a three-symbol polyA tail. -/
def tailedRecord : FastaRecord := ⟨"m1/42/10_100_CCS".toList, "CGTAAA".toList⟩

/-- A record without polyA tail. -/
def plainRecord : FastaRecord := ⟨"m1/42/10_100_CCS".toList, "CGT".toList⟩

/-- A record that is polyA throughout. -/
def allARecord : FastaRecord := ⟨"m1/42/10_100_CCS".toList, "AAAA".toList⟩

/-- A record with an empty sequence. -/
def emptyRecord : FastaRecord := ⟨"m1/42/10_100_CCS".toList, []⟩

/-- A record whose name has a start field without any digit. -/
def unreadableRecord : FastaRecord := ⟨"m1/42/x_10_CCS".toList, "CGT".toList⟩

/-! ## Model selection in `main` -/

/-- The option variables of `main` after the command line has been parsed
(main.cpp lines 53-58). -/
structure Options where
  input_fa_file : String
  model_file : String
  train_polya_file : String
  train_nonpolya_file : String
  train_model_file : String
  show_color : Bool
  deriving DecidableEq, Repr

/-- Where the store handed to `trimPolyA` got its values from. -/
inductive Model where
  | trained (polya nonpolya : String)
  | loaded (file : String)
  | default
  deriving DecidableEq, Repr

/-- The observable steps of `main` from line 83 on. -/
inductive Event where
  | message (text : String)
  | train (polya nonpolya : String)
  | writeModel (file : String)
  | readModel (file : String)
  | setDefault
  | trim (showColor : Bool) (input : String) (model : Model)
  deriving DecidableEq, Repr

/-- Exit status of the process. -/
inductive Exit where
  | EXIT_SUCCESS
  | EXIT_FAILURE
  deriving DecidableEq, Repr

/-- A run of `main`: the steps taken, in order, and the exit status. -/
structure Run where
  events : List Event
  status : Exit
  deriving DecidableEq, Repr

/-- The function `main` from the declaration of `hmm` on (main.cpp lines 83-118),
for option values that came through the parsing block.  The argument `readOk` is
the result of `hmm.read(model_file)`. -/
def main (o : Options) (readOk : Bool) : Run :=
  if !o.train_polya_file.isEmpty && !o.train_nonpolya_file.isEmpty then
    if !o.model_file.isEmpty then
      ⟨[Event.message "cannot specify -m with -a/-b"], Exit.EXIT_FAILURE⟩
    else
      let m := Model.trained o.train_polya_file o.train_nonpolya_file
      let w := if !o.train_model_file.isEmpty then [Event.writeModel o.train_model_file] else []
      ⟨[Event.train o.train_polya_file o.train_nonpolya_file] ++ w
        ++ [Event.trim o.show_color o.input_fa_file m], Exit.EXIT_SUCCESS⟩
  else if !o.model_file.isEmpty then
    if !readOk then
      ⟨[Event.readModel o.model_file], Exit.EXIT_FAILURE⟩
    else
      ⟨[Event.readModel o.model_file,
        Event.trim o.show_color o.input_fa_file (Model.loaded o.model_file)], Exit.EXIT_SUCCESS⟩
  else
    if !o.train_polya_file.isEmpty || !o.train_nonpolya_file.isEmpty then
      ⟨[Event.message "need to specify both -a and -b"], Exit.EXIT_FAILURE⟩
    else
      ⟨[Event.setDefault, Event.trim o.show_color o.input_fa_file Model.default],
        Exit.EXIT_SUCCESS⟩

/-! ## The scan loop -/

theorem states_eq_POLYA_of_ne {x : States} (h : x ≠ NONPOLYA) : x = POLYA := by
  cases x
  · rfl
  · exact absurd rfl h

/-- Invariant of the scan loop: started at a counter below which every state is
`POLYA`, with enough iterations left to reach the end of the path, the loop
stops at the first `NONPOLYA` at or after the counter, or at the end. -/
theorem scanLoop_spec (p : List States) :
    ∀ (fuel i : Nat), i ≤ p.length → p.length ≤ i + fuel →
      (∀ j, j < i → p[j]? = some POLYA) →
      i ≤ scanLoop p fuel i ∧ scanLoop p fuel i ≤ p.length ∧
        (∀ j, j < scanLoop p fuel i → p[j]? = some POLYA) ∧
        (scanLoop p fuel i = p.length ∨ p[scanLoop p fuel i]? = some NONPOLYA) := by
  intro fuel
  induction fuel with
  | zero =>
    intro i hi hfuel hinv
    have hil : i = p.length := by omega
    simp only [scanLoop]
    exact ⟨le_refl _, hi, hinv, Or.inl hil⟩
  | succ fuel ih =>
    intro i hi hfuel hinv
    simp only [scanLoop]
    by_cases hlt : i < p.length
    · rw [if_pos hlt]
      by_cases hN : p[i]? = some NONPOLYA
      · rw [if_pos hN]
        exact ⟨le_refl _, hi, hinv, Or.inr hN⟩
      · rw [if_neg hN]
        have hP : p[i]? = some POLYA := by
          rw [List.getElem?_eq_getElem hlt] at hN ⊢
          have hne : p[i] ≠ NONPOLYA := fun h => hN (by rw [h])
          rw [states_eq_POLYA_of_ne hne]
        have hinv' : ∀ j, j < i + 1 → p[j]? = some POLYA := by
          intro j hj
          rcases Nat.lt_succ_iff_lt_or_eq.mp hj with h | h
          · exact hinv j h
          · rw [h]; exact hP
        obtain ⟨h1, h2, h3, h4⟩ := ih (i + 1) hlt (by omega) hinv'
        exact ⟨by omega, h2, h3, h4⟩
    · rw [if_neg hlt]
      exact ⟨le_refl _, hi, hinv, Or.inl (by omega)⟩

theorem trimLength_le (p : List States) : trimLength p ≤ p.length :=
  (scanLoop_spec p p.length 0 (Nat.zero_le _) (by omega) (fun j hj => absurd hj (Nat.not_lt_zero j))).2.1

theorem trimLength_below (p : List States) (j : Nat) (hj : j < trimLength p) :
    p[j]? = some POLYA :=
  (scanLoop_spec p p.length 0 (Nat.zero_le _) (by omega)
    (fun j hj => absurd hj (Nat.not_lt_zero j))).2.2.1 j hj

theorem trimLength_stop (p : List States) :
    trimLength p = p.length ∨ p[trimLength p]? = some NONPOLYA :=
  (scanLoop_spec p p.length 0 (Nat.zero_le _) (by omega)
    (fun j hj => absurd hj (Nat.not_lt_zero j))).2.2.2

theorem trimLength_maximal (p : List States) (m : Nat) (hm : m ≤ p.length)
    (hall : ∀ i, i < m → p[i]? ≠ some NONPOLYA) : m ≤ trimLength p := by
  by_contra hlt
  have hk : trimLength p < m := by omega
  rcases trimLength_stop p with h | h
  · omega
  · exact hall _ hk h

theorem trimLength_nonpolya_cons (rest : List States) : trimLength (NONPOLYA :: rest) = 0 := by
  simp [trimLength, scanLoop]

theorem trimLength_replicate (L : Nat) : trimLength (List.replicate L POLYA) = L := by
  rcases trimLength_stop (List.replicate L POLYA) with h | h
  · simpa using h
  · have hle := trimLength_le (List.replicate L POLYA)
    simp only [List.length_replicate] at hle
    rw [List.getElem?_replicate] at h
    split at h <;> simp at h

/-- C1: for every state path `p` the trim length computed by the scan loop is the
length of the longest prefix of `p` free of `NONPOLYA`: every index below it
holds `POLYA`, it is either the length of `p` or the index of a `NONPOLYA`, and no
longer `NONPOLYA`-free prefix exists.  So it lies in `[0, len p]`, the path
`[POLYA, POLYA, POLYA, NONPOLYA, POLYA]` gives 3, a path starting with
`NONPOLYA` gives 0 and an all-`POLYA` path of length `L` gives `L`. -/
theorem C1_trimLength_is_leading_polyA_run (p : List States) :
    (∀ i, i < trimLength p → p[i]? = some POLYA) ∧
    (trimLength p = p.length ∨ p[trimLength p]? = some NONPOLYA) ∧
    (∀ m, m ≤ p.length → (∀ i, i < m → p[i]? ≠ some NONPOLYA) → m ≤ trimLength p) ∧
    0 ≤ trimLength p ∧ trimLength p ≤ p.length ∧
    trimLength [POLYA, POLYA, POLYA, NONPOLYA, POLYA] = 3 ∧
    (∀ rest, trimLength (NONPOLYA :: rest) = 0) ∧
    (∀ L, trimLength (List.replicate L POLYA) = L) :=
  ⟨trimLength_below p, trimLength_stop p, trimLength_maximal p, Nat.zero_le _,
    trimLength_le p, by decide, trimLength_nonpolya_cons, trimLength_replicate⟩

/-- Witness for C1 on the path `[POLYA, POLYA, NONPOLYA, POLYA]`: index 1 is below
the trim length 2 and holds `POLYA`. -/
theorem C1_trimLength_is_leading_polyA_run_witness :
    1 < trimLength [POLYA, POLYA, NONPOLYA, POLYA] ∧
      [POLYA, POLYA, NONPOLYA, POLYA][1]? = some POLYA :=
  ⟨by decide, (C1_trimLength_is_leading_polyA_run [POLYA, POLYA, NONPOLYA, POLYA]).1 1
    (by decide)⟩

/-! ## The default parameters -/

/-- C4: in the store written by `setDefaultHMM`, the initial probabilities sum to
exactly 1, each transition row sums to exactly 1, and these six entries lie in
`[0, 1]`. -/
theorem C4_default_initial_and_transition_rows (hmm : PolyAHmmMode) :
    (setDefaultHMM hmm).initialProb POLYA + (setDefaultHMM hmm).initialProb NONPOLYA = 1 ∧
    (setDefaultHMM hmm).transProb POLYA POLYA
      + (setDefaultHMM hmm).transProb POLYA NONPOLYA = 1 ∧
    (setDefaultHMM hmm).transProb NONPOLYA POLYA
      + (setDefaultHMM hmm).transProb NONPOLYA NONPOLYA = 1 ∧
    (0 ≤ (setDefaultHMM hmm).initialProb POLYA ∧ (setDefaultHMM hmm).initialProb POLYA ≤ 1) ∧
    (0 ≤ (setDefaultHMM hmm).initialProb NONPOLYA
      ∧ (setDefaultHMM hmm).initialProb NONPOLYA ≤ 1) ∧
    (0 ≤ (setDefaultHMM hmm).transProb POLYA POLYA
      ∧ (setDefaultHMM hmm).transProb POLYA POLYA ≤ 1) ∧
    (0 ≤ (setDefaultHMM hmm).transProb POLYA NONPOLYA
      ∧ (setDefaultHMM hmm).transProb POLYA NONPOLYA ≤ 1) ∧
    (0 ≤ (setDefaultHMM hmm).transProb NONPOLYA POLYA
      ∧ (setDefaultHMM hmm).transProb NONPOLYA POLYA ≤ 1) ∧
    (0 ≤ (setDefaultHMM hmm).transProb NONPOLYA NONPOLYA
      ∧ (setDefaultHMM hmm).transProb NONPOLYA NONPOLYA ≤ 1) := by
  simp [setDefaultHMM, PolyAHmmMode.setTrans, PolyAHmmMode.setEmit,
    PolyAHmmMode.setInitial]
  norm_num

/-- C3, evaluated on the code: in the store written by `setDefaultHMM` the
`POLYA` emission row sums to exactly 1, while the `NONPOLYA` emission row sums to
0.999999, which is 1e-6 below 1 and outside `[1 - 1e-9, 1 + 1e-9]`. -/
theorem C3_default_nonpolya_emission_row_off (hmm : PolyAHmmMode) :
    emitRowSum (setDefaultHMM hmm) POLYA = 1 ∧
    emitRowSum (setDefaultHMM hmm) NONPOLYA = 0.999999 ∧
    ¬ (1 - 1e-9 ≤ emitRowSum (setDefaultHMM hmm) NONPOLYA
        ∧ emitRowSum (setDefaultHMM hmm) NONPOLYA ≤ 1 + 1e-9) := by
  simp [emitRowSum, setDefaultHMM, PolyAHmmMode.setTrans, PolyAHmmMode.setEmit,
    PolyAHmmMode.setInitial, to_idx]
  norm_num

/-! ## Model selection -/

/-- C5, evaluated on the code: with a model file and only the polyA training file
given, `main` prints no message, reads the model file and goes on to trim with
the loaded model, ending with success.  With the same model file and both
training files the run is rejected with the message of line 89. -/
theorem C5_model_with_one_training_file_is_loaded :
    main ⟨"in.fa", "model.hmm", "polyA.fa", "", "", false⟩ true =
      ⟨[Event.readModel "model.hmm",
        Event.trim false "in.fa" (Model.loaded "model.hmm")], Exit.EXIT_SUCCESS⟩ ∧
    main ⟨"in.fa", "model.hmm", "polyA.fa", "nonpolyA.fa", "", false⟩ true =
      ⟨[Event.message "cannot specify -m with -a/-b"], Exit.EXIT_FAILURE⟩ :=
  ⟨by decide, by decide⟩

theorem toInt32_of_range (z : Int) (h1 : -2 ^ 31 ≤ z) (h2 : z < 2 ^ 31) : toInt32 z = z := by
  simp only [toInt32]
  omega

theorem subAssign_eq (e : Int) (p : Nat) (h1 : -2 ^ 31 ≤ e - p) (h2 : e - p < 2 ^ 31) :
    subAssign e p = e - p := by
  simp only [subAssign, toInt32, toSizeT]
  omega

theorem addAssign_eq (e : Int) (p : Nat) (h1 : -2 ^ 31 ≤ e + p) (h2 : e + p < 2 ^ 31) :
    addAssign e p = e + p := by
  simp only [addAssign, toInt32, toSizeT]
  omega

theorem updateCoords_fst (start end_ : Int) (p : Nat) : (updateCoords start end_ p).1 = start := by
  simp only [updateCoords]
  split <;> rfl

theorem doubleToInt_range (x : Option Int) (v : Int) (h : x.bind doubleToInt = some v) :
    -2 ^ 31 ≤ v ∧ v < 2 ^ 31 := by
  cases x with
  | none => simp at h
  | some w =>
    simp only [Option.some_bind, doubleToInt] at h
    split at h
    · cases h
      assumption
    · cases h

theorem parseHeader_range (s movie zmw : List Char) (start end_ : Int)
    (h : parseHeader s = some (movie, zmw, start, end_)) :
    (-2 ^ 31 ≤ start ∧ start < 2 ^ 31) ∧ (-2 ^ 31 ≤ end_ ∧ end_ < 2 ^ 31) := by
  simp only [parseHeader] at h
  split at h
  · cases h
  · split at h
    · cases h
    · split at h
      · cases h
      · split at h
        · cases h
        · rename_i hstart
          split at h
          · cases h
          · split at h
            · cases h
            · rename_i hend
              simp only [Option.some.injEq, Prod.mk.injEq] at h
              obtain ⟨_, _, h3, h4⟩ := h
              subst h3
              subst h4
              exact ⟨doubleToInt_range _ _ hstart, doubleToInt_range _ _ hend⟩

theorem printHeader_of_parse (s movie zmw : List Char) (start end_ : Int) (p : Nat)
    (h : parseHeader s = some (movie, zmw, start, end_)) :
    printHeader s p = some (renderHeader movie zmw (updateCoords start end_ p)) := by
  simp only [printHeader, h]

/-- C10: for a name whose coordinates parse to `start ≠ end` (both then fit the
32-bit `int`) and a trim length `p < |end - start|`, `printHeader` prints the
coordinates `(start', end')` with `start' = start`,
`|end' - start'| = |end - start| - p` and the sign of `end' - start'` equal to
the sign of `end - start`, on both strands. -/
theorem C10_span_shrinks_orientation_kept (s movie zmw : List Char) (start end_ : Int)
    (p : Nat) (hparse : parseHeader s = some (movie, zmw, start, end_))
    (hne : start ≠ end_) (hp : (p : Int) < |end_ - start|) :
    printHeader s p = some (renderHeader movie zmw (updateCoords start end_ p)) ∧
    (updateCoords start end_ p).1 = start ∧
    |(updateCoords start end_ p).2 - (updateCoords start end_ p).1|
      = |end_ - start| - p ∧
    Int.sign ((updateCoords start end_ p).2 - (updateCoords start end_ p).1)
      = Int.sign (end_ - start) := by
  obtain ⟨⟨hs1, hs2⟩, he1, he2⟩ := parseHeader_range s movie zmw start end_ hparse
  refine ⟨printHeader_of_parse s movie zmw start end_ p hparse, updateCoords_fst _ _ _, ?_, ?_⟩
  · by_cases hlt : start < end_
    · have habs : |end_ - start| = end_ - start := abs_of_pos (by omega)
      rw [habs] at hp ⊢
      have hsub : subAssign end_ p = end_ - p := subAssign_eq end_ p (by omega) (by omega)
      simp only [updateCoords, if_pos hlt, hsub]
      rw [abs_of_pos (by omega)]
      omega
    · have hgt : end_ < start := by omega
      have habs : |end_ - start| = -(end_ - start) := abs_of_neg (by omega)
      rw [habs] at hp ⊢
      have hadd : addAssign end_ p = end_ + p := addAssign_eq end_ p (by omega) (by omega)
      simp only [updateCoords, if_neg hlt, hadd]
      rw [abs_of_neg (by omega)]
      omega
  · by_cases hlt : start < end_
    · have habs : |end_ - start| = end_ - start := abs_of_pos (by omega)
      rw [habs] at hp
      have hsub : subAssign end_ p = end_ - p := subAssign_eq end_ p (by omega) (by omega)
      simp only [updateCoords, if_pos hlt, hsub]
      rw [Int.sign_eq_one_of_pos (by omega), Int.sign_eq_one_of_pos (by omega)]
    · have hgt : end_ < start := by omega
      have habs : |end_ - start| = -(end_ - start) := abs_of_neg (by omega)
      rw [habs] at hp
      have hadd : addAssign end_ p = end_ + p := addAssign_eq end_ p (by omega) (by omega)
      simp only [updateCoords, if_neg hlt, hadd]
      rw [Int.sign_eq_neg_one_of_neg (by omega), Int.sign_eq_neg_one_of_neg (by omega)]

/-- Witness for C10 on the minus-strand name `m1/42/100_10_CCS` with trim
length 3. -/
theorem C10_span_shrinks_orientation_kept_witness :
    printHeader "m1/42/100_10_CCS".toList 3
      = some (renderHeader "m1".toList "42".toList (updateCoords 100 10 3)) ∧
    (updateCoords 100 10 3).1 = 100 ∧
    |(updateCoords 100 10 3).2 - (updateCoords 100 10 3).1| = |(10 : Int) - 100| - (3 : Nat) ∧
    Int.sign ((updateCoords 100 10 3).2 - (updateCoords 100 10 3).1)
      = Int.sign ((10 : Int) - 100) :=
  C10_span_shrinks_orientation_kept "m1/42/100_10_CCS".toList "m1".toList "42".toList 100 10 3
    (by decide) (by decide) (by decide)

/-! ## Records -/

theorem renderHeader_ne_nil (movie zmw : List Char) (c : Int × Int) :
    renderHeader movie zmw c ≠ [] := by
  simp [renderHeader]

theorem printHeader_ne_nil (s hdr : List Char) (p : Nat) (h : printHeader s p = some hdr) :
    hdr ≠ [] := by
  simp only [printHeader] at h
  split at h
  · cases h
  · cases h
    exact renderHeader_ne_nil _ _ _

theorem printHeader_isSome (s : List Char) (p : Nat) (h : (parseHeader s).isSome = true) :
    ∃ hdr, printHeader s p = some hdr := by
  obtain ⟨⟨movie, zmw, start, end_⟩, hx⟩ := Option.isSome_iff_exists.mp h
  exact ⟨_, printHeader_of_parse s movie zmw start end_ p hx⟩

/-- When the trim length is not below the record size, nothing goes to stdout. -/
theorem trimRecord_skip (showColor : Bool) (RED RESET : List Char)
    (decode : List Char → List States) (fa : FastaRecord)
    (h : ¬ trimLength (decode fa.seq_.reverse) < fa.seq_.length) :
    trimRecord showColor RED RESET decode fa
      = some ⟨stderrLine fa.name_ (trimLength (decode fa.seq_.reverse)), []⟩ := by
  simp only [trimRecord, FastaRecord.size, if_neg h]

/-- When the trim length is below the record size and the header prints, stdout
gets the header followed by the sequence line. -/
theorem trimRecord_emit (showColor : Bool) (RED RESET : List Char)
    (decode : List Char → List States) (fa : FastaRecord) (hdr : List Char)
    (h : trimLength (decode fa.seq_.reverse) < fa.seq_.length)
    (hh : printHeader fa.name_ (trimLength (decode fa.seq_.reverse)) = some hdr) :
    trimRecord showColor RED RESET decode fa
      = some ⟨stderrLine fa.name_ (trimLength (decode fa.seq_.reverse)),
          hdr ++ (if showColor = true then
              fa.seq_.take (fa.seq_.length - trimLength (decode fa.seq_.reverse)) ++ RED
                ++ fa.seq_.drop (fa.seq_.length - trimLength (decode fa.seq_.reverse))
                ++ " \n".toList ++ RESET
            else fa.seq_.take (fa.seq_.length - trimLength (decode fa.seq_.reverse)) ++ ['\n'])⟩ := by
  simp only [trimRecord, FastaRecord.size, if_pos h, hh, substr, substrFrom, List.drop_zero]
  cases showColor <;> simp

theorem trimLength_all_polya (p : List States) (h : ∀ x, x ∈ p → x = POLYA) :
    trimLength p = p.length := by
  rcases trimLength_stop p with hk | hk
  · exact hk
  · have hmem : NONPOLYA ∈ p := List.getElem?_mem hk
    exact absurd (h _ hmem) (by decide)

theorem updateCoords_zero (start end_ : Int) (h1 : -2 ^ 31 ≤ end_) (h2 : end_ < 2 ^ 31) :
    updateCoords start end_ 0 = (start, end_) := by
  have hsub : subAssign end_ 0 = end_ := by
    rw [subAssign_eq end_ 0 (by simpa using h1) (by simpa using h2)]
    simp
  have hadd : addAssign end_ 0 = end_ := by
    rw [addAssign_eq end_ 0 (by simpa using h1) (by simpa using h2)]
    simp
  simp only [updateCoords, hsub, hadd]
  split <;> rfl

/-- C2: when the decoder's path for the reversed sequence has the length `n` of
the sequence and the trim length `k` is below `n`, `trimPolyA<false>` writes the
header and then exactly the first `n - k` symbols of the sequence.  The `k`
symbols left out are the trailing ones; each of them, at index `j`, was the
decoder's input position `n - 1 - j` and is labelled `POLYA`; the last kept
symbol, at index `n - k - 1`, was input position `k` and is labelled
`NONPOLYA`. -/
theorem C2_plain_output_keeps_leading_symbols (RED RESET : List Char)
    (decode : List Char → List States) (fa : FastaRecord) (hdr : List Char)
    (hlen : (decode fa.seq_.reverse).length = fa.seq_.length)
    (hk : trimLength (decode fa.seq_.reverse) < fa.seq_.length)
    (hhdr : printHeader fa.name_ (trimLength (decode fa.seq_.reverse)) = some hdr) :
    trimRecord false RED RESET decode fa
      = some ⟨stderrLine fa.name_ (trimLength (decode fa.seq_.reverse)),
          hdr ++ (fa.seq_.take (fa.seq_.length - trimLength (decode fa.seq_.reverse))
            ++ ['\n'])⟩ ∧
    fa.seq_.take (fa.seq_.length - trimLength (decode fa.seq_.reverse))
      ++ fa.seq_.drop (fa.seq_.length - trimLength (decode fa.seq_.reverse)) = fa.seq_ ∧
    (fa.seq_.take (fa.seq_.length - trimLength (decode fa.seq_.reverse))).length
      = fa.seq_.length - trimLength (decode fa.seq_.reverse) ∧
    (fa.seq_.drop (fa.seq_.length - trimLength (decode fa.seq_.reverse))).length
      = trimLength (decode fa.seq_.reverse) ∧
    (∀ j, fa.seq_.length - trimLength (decode fa.seq_.reverse) ≤ j → j < fa.seq_.length →
      fa.seq_.reverse[fa.seq_.length - 1 - j]? = fa.seq_[j]? ∧
      (decode fa.seq_.reverse)[fa.seq_.length - 1 - j]? = some POLYA) ∧
    fa.seq_.reverse[trimLength (decode fa.seq_.reverse)]?
      = fa.seq_[fa.seq_.length - trimLength (decode fa.seq_.reverse) - 1]? ∧
    (decode fa.seq_.reverse)[trimLength (decode fa.seq_.reverse)]? = some NONPOLYA := by
  refine ⟨?_, List.take_append_drop _ _, ?_, ?_, ?_, ?_, ?_⟩
  · rw [trimRecord_emit false RED RESET decode fa hdr hk hhdr]
    simp
  · rw [List.length_take]
    omega
  · rw [List.length_drop]
    omega
  · intro j hj1 hj2
    constructor
    · rw [List.getElem?_reverse (by omega)]
      congr 1
      omega
    · exact trimLength_below _ _ (by omega)
  · rw [List.getElem?_reverse hk]
    congr 1
    omega
  · rcases trimLength_stop (decode fa.seq_.reverse) with h | h
    · omega
    · exact h

/-- Witness for C2: the record `CGTAAA` under the toy decoder keeps `CGT`. -/
theorem C2_plain_output_keeps_leading_symbols_witness :
    trimRecord false [] [] labelByLetter tailedRecord
      = some ⟨stderrLine tailedRecord.name_ (trimLength (labelByLetter tailedRecord.seq_.reverse)),
          ">m1/42/10_97_CCS\n".toList
            ++ (tailedRecord.seq_.take
                (tailedRecord.seq_.length - trimLength (labelByLetter tailedRecord.seq_.reverse))
              ++ ['\n'])⟩ :=
  (C2_plain_output_keeps_leading_symbols [] [] labelByLetter tailedRecord ">m1/42/10_97_CCS\n".toList
    (by decide) (by decide) (by decide)).1

/-- C7, as stated, fails on a record with an empty sequence: its trim length is 0
and its header has the Iso-Seq form, yet neither `trimPolyA<false>` nor
`trimPolyA<true>` writes anything to stdout for it. -/
theorem C7_empty_record_is_dropped :
    trimLength (labelByLetter emptyRecord.seq_.reverse) = 0 ∧
    parseHeader emptyRecord.name_ = some ("m1".toList, "42".toList, 10, 100) ∧
    trimRecord false [] [] labelByLetter emptyRecord
      = some ⟨"m1/42/10_100_CCS\t0\n".toList, []⟩ ∧
    trimRecord true [] [] labelByLetter emptyRecord
      = some ⟨"m1/42/10_100_CCS\t0\n".toList, []⟩ :=
  ⟨by decide, by decide, by decide, by decide⟩

/-- C7, amended: for every record with a non-empty sequence and a header that
parses to `(movie, zmw, start, end)`, if the trim length is 0 then `printHeader`
prints `start` and `end` as parsed, `trimPolyA<false>` writes the header and the
whole input sequence, and `trimPolyA<true>` writes the header, the whole input
sequence and an empty coloured tail. -/
theorem C7_untrimmed_nonempty_record_unchanged (RED RESET : List Char)
    (decode : List Char → List States) (fa : FastaRecord) (movie zmw : List Char)
    (start end_ : Int)
    (hparse : parseHeader fa.name_ = some (movie, zmw, start, end_))
    (hne : fa.seq_ ≠ [])
    (h0 : trimLength (decode fa.seq_.reverse) = 0) :
    printHeader fa.name_ 0 = some (renderHeader movie zmw (start, end_)) ∧
    trimRecord false RED RESET decode fa
      = some ⟨stderrLine fa.name_ 0,
          renderHeader movie zmw (start, end_) ++ (fa.seq_ ++ ['\n'])⟩ ∧
    trimRecord true RED RESET decode fa
      = some ⟨stderrLine fa.name_ 0,
          renderHeader movie zmw (start, end_)
            ++ (fa.seq_ ++ RED ++ [] ++ " \n".toList ++ RESET)⟩ := by
  obtain ⟨_, he1, he2⟩ := parseHeader_range fa.name_ movie zmw start end_ hparse
  have hprint : printHeader fa.name_ 0 = some (renderHeader movie zmw (start, end_)) := by
    rw [printHeader_of_parse fa.name_ movie zmw start end_ 0 hparse,
      updateCoords_zero start end_ he1 he2]
  have hpos : 0 < fa.seq_.length := List.length_pos.mpr hne
  have hk : trimLength (decode fa.seq_.reverse) < fa.seq_.length := by omega
  have hprint' : printHeader fa.name_ (trimLength (decode fa.seq_.reverse))
      = some (renderHeader movie zmw (start, end_)) := by rw [h0]; exact hprint
  refine ⟨hprint, ?_, ?_⟩
  · rw [trimRecord_emit false RED RESET decode fa _ hk hprint', h0]
    simp
  · rw [trimRecord_emit true RED RESET decode fa _ hk hprint', h0]
    simp

/-- Witness for C7 (amended): the record `CGT` under the toy decoder. -/
theorem C7_untrimmed_nonempty_record_unchanged_witness :
    printHeader plainRecord.name_ 0
      = some (renderHeader "m1".toList "42".toList (10, 100)) ∧
    trimRecord false [] [] labelByLetter plainRecord
      = some ⟨stderrLine plainRecord.name_ 0,
          renderHeader "m1".toList "42".toList (10, 100) ++ (plainRecord.seq_ ++ ['\n'])⟩ ∧
    trimRecord true [] [] labelByLetter plainRecord
      = some ⟨stderrLine plainRecord.name_ 0,
          renderHeader "m1".toList "42".toList (10, 100)
            ++ (plainRecord.seq_ ++ [] ++ [] ++ " \n".toList ++ [])⟩ :=
  C7_untrimmed_nonempty_record_unchanged [] [] labelByLetter plainRecord "m1".toList "42".toList
    10 100 (by decide) (by decide) (by decide)

/-- C9, as stated, fails on a record whose name `printHeader` cannot read: for
the name `m1/42/x_10_CCS` and the sequence `CGT` the trim length 0 is below the
length 3, the scans find both `/` and the first `_`, and `std::stod` is handed
`x_`, which holds no digit to convert (`std::invalid_argument`, line 192).
`printHeader` does not return, so the sequence line of lines 157-163 is never
written: no output record although `k < n`, in either mode. -/
theorem C9_unreadable_name_writes_no_record :
    trimLength (labelByLetter unreadableRecord.seq_.reverse) < unreadableRecord.seq_.length ∧
    scanTo '/' unreadableRecord.name_ = some ("m1".toList, "42/x_10_CCS".toList) ∧
    scanTo '/' "42/x_10_CCS".toList = some ("42".toList, "x_10_CCS".toList) ∧
    scanTo '_' "x_10_CCS".toList = some ("x".toList, "10_CCS".toList) ∧
    stod "x_".toList = none ∧
    printHeader unreadableRecord.name_
      (trimLength (labelByLetter unreadableRecord.seq_.reverse)) = none ∧
    trimRecord false [] [] labelByLetter unreadableRecord = none ∧
    trimRecord true [] [] labelByLetter unreadableRecord = none :=
  ⟨by decide, by decide, by decide, by decide, by decide, by decide, by decide, by decide⟩

/-- C9, amended: for a record of sequence length `n` with trim length `k` whose
name `printHeader` reads as `(movie, zmw, start, end)`, the loop body completes
and stdout gets an output record exactly when `k < n`; the record is then the
header with the updated coordinates followed by the sequence line, the kept
prefix has length `n - k`, and `1 ≤ n - k ≤ n`.  Whatever the name, when `k < n`
is false only the stderr line is written, so a read decoded as `POLYA`
throughout and an empty read give no output record; and the loop body fails to
complete exactly when `k < n` and `printHeader` fails. -/
theorem C9_readable_record_written_iff_trim_below_length (showColor : Bool)
    (RED RESET : List Char) (decode : List Char → List States) (fa : FastaRecord) :
    (∀ movie zmw start end_, parseHeader fa.name_ = some (movie, zmw, start, end_) →
      (∃ o, trimRecord showColor RED RESET decode fa = some o ∧
        (o.out ≠ [] ↔ trimLength (decode fa.seq_.reverse) < fa.seq_.length)) ∧
      (trimLength (decode fa.seq_.reverse) < fa.seq_.length →
        trimRecord showColor RED RESET decode fa
          = some ⟨stderrLine fa.name_ (trimLength (decode fa.seq_.reverse)),
              renderHeader movie zmw
                  (updateCoords start end_ (trimLength (decode fa.seq_.reverse)))
                ++ (if showColor = true then
                  fa.seq_.take (fa.seq_.length - trimLength (decode fa.seq_.reverse)) ++ RED
                    ++ fa.seq_.drop (fa.seq_.length - trimLength (decode fa.seq_.reverse))
                    ++ " \n".toList ++ RESET
                else fa.seq_.take (fa.seq_.length - trimLength (decode fa.seq_.reverse))
                    ++ ['\n'])⟩ ∧
        renderHeader movie zmw
            (updateCoords start end_ (trimLength (decode fa.seq_.reverse))) ≠ [] ∧
        (fa.seq_.take (fa.seq_.length - trimLength (decode fa.seq_.reverse))).length
          = fa.seq_.length - trimLength (decode fa.seq_.reverse) ∧
        1 ≤ fa.seq_.length - trimLength (decode fa.seq_.reverse) ∧
        fa.seq_.length - trimLength (decode fa.seq_.reverse) ≤ fa.seq_.length)) ∧
    (¬ trimLength (decode fa.seq_.reverse) < fa.seq_.length →
      trimRecord showColor RED RESET decode fa
        = some ⟨stderrLine fa.name_ (trimLength (decode fa.seq_.reverse)), []⟩) ∧
    ((decode fa.seq_.reverse).length = fa.seq_.length →
      (∀ x, x ∈ decode fa.seq_.reverse → x = POLYA) →
      trimRecord showColor RED RESET decode fa
        = some ⟨stderrLine fa.name_ fa.seq_.length, []⟩) ∧
    (fa.seq_ = [] →
      trimRecord showColor RED RESET decode fa
        = some ⟨stderrLine fa.name_ (trimLength (decode fa.seq_.reverse)), []⟩) ∧
    (trimRecord showColor RED RESET decode fa = none ↔
      (trimLength (decode fa.seq_.reverse) < fa.seq_.length ∧
        printHeader fa.name_ (trimLength (decode fa.seq_.reverse)) = none)) := by
  refine ⟨?_, trimRecord_skip showColor RED RESET decode fa, ?_, ?_, ?_⟩
  · intro movie zmw start end_ hparse
    have hp := printHeader_of_parse fa.name_ movie zmw start end_
      (trimLength (decode fa.seq_.reverse)) hparse
    constructor
    · by_cases hk : trimLength (decode fa.seq_.reverse) < fa.seq_.length
      · refine ⟨_, trimRecord_emit showColor RED RESET decode fa _ hk hp, ?_⟩
        simp [renderHeader_ne_nil, hk]
      · refine ⟨_, trimRecord_skip showColor RED RESET decode fa hk, ?_⟩
        simp [hk]
    · intro hk
      refine ⟨trimRecord_emit showColor RED RESET decode fa _ hk hp,
        renderHeader_ne_nil _ _ _, ?_, by omega, by omega⟩
      rw [List.length_take]
      omega
  · intro hlen hall
    have hk := trimLength_all_polya _ hall
    rw [hlen] at hk
    have hskip := trimRecord_skip showColor RED RESET decode fa (by omega)
    rw [hk] at hskip
    exact hskip
  · intro hnil
    exact trimRecord_skip showColor RED RESET decode fa (by rw [hnil]; simp)
  · by_cases hk : trimLength (decode fa.seq_.reverse) < fa.seq_.length
    · cases hp : printHeader fa.name_ (trimLength (decode fa.seq_.reverse)) with
      | none => simp [trimRecord, FastaRecord.size, hk, hp]
      | some hdr =>
        rw [trimRecord_emit showColor RED RESET decode fa hdr hk hp]
        simp
    · rw [trimRecord_skip showColor RED RESET decode fa hk]
      simp [hk]

/-- Witness for C9 (amended): under the toy decoder the record `CGTAAA`, whose
name is read as `(m1, 42, 10, 100)` and whose trim length 3 is below its length
6, gets the output record `>m1/42/10_97_CCS` / `CGT`; the all-`A` record gets
none. -/
theorem C9_readable_record_written_iff_trim_below_length_witness :
    (parseHeader tailedRecord.name_ = some ("m1".toList, "42".toList, 10, 100) ∧
      trimLength (labelByLetter tailedRecord.seq_.reverse) < tailedRecord.seq_.length ∧
      trimRecord false [] [] labelByLetter tailedRecord
        = some ⟨"m1/42/10_100_CCS\t3\n".toList, ">m1/42/10_97_CCS\nCGT\n".toList⟩) ∧
    ((labelByLetter allARecord.seq_.reverse).length = allARecord.seq_.length ∧
      (∀ x, x ∈ labelByLetter allARecord.seq_.reverse → x = POLYA) ∧
      trimRecord true [] [] labelByLetter allARecord
        = some ⟨stderrLine allARecord.name_ allARecord.seq_.length, []⟩) :=
  ⟨⟨by decide, by decide,
      (((C9_readable_record_written_iff_trim_below_length false [] [] labelByLetter
        tailedRecord).1 "m1".toList "42".toList 10 100 (by decide)).2 (by decide)).1⟩,
    ⟨by decide, by decide,
      (C9_readable_record_written_iff_trim_below_length true [] [] labelByLetter
        allARecord).2.2.1 (by decide) (by decide)⟩⟩

/-! ## Names of the Iso-Seq form are parsed -/

theorem scanTo_append (c : Char) (pre rest : List Char) (h : c ∉ pre) :
    scanTo c (pre ++ c :: rest) = some (pre, rest) := by
  induction pre with
  | nil => simp [scanTo]
  | cons x xs ih =>
    have hx : x ≠ c := fun e => h (by rw [e]; exact List.mem_cons_self _ _)
    have hxs : c ∉ xs := fun e => h (List.mem_cons_of_mem _ e)
    simp [scanTo, hx, ih hxs]

theorem digitChar_isDigit : ∀ m, m < 10 → (Nat.digitChar m).isDigit = true := by
  decide

theorem digitChar_value : ∀ m, m < 10 → (Nat.digitChar m).toNat - '0'.toNat = m := by
  decide

theorem toDigitsCore_isDigit (f : Nat) :
    ∀ (n : Nat) (acc : List Char), (∀ c, c ∈ acc → c.isDigit = true) →
      ∀ c, c ∈ Nat.toDigitsCore 10 f n acc → c.isDigit = true := by
  induction f with
  | zero =>
    intro n acc hacc c hc
    exact hacc c (by simpa [Nat.toDigitsCore] using hc)
  | succ f ih =>
    intro n acc hacc c hc
    have hd : (Nat.digitChar (n % 10)).isDigit = true :=
      digitChar_isDigit _ (Nat.mod_lt _ (by decide))
    have hacc' : ∀ c, c ∈ Nat.digitChar (n % 10) :: acc → c.isDigit = true := by
      intro c hc
      rcases List.mem_cons.mp hc with h | h
      · rw [h]; exact hd
      · exact hacc c h
    simp only [Nat.toDigitsCore] at hc
    split at hc
    · exact hacc' c hc
    · exact ih _ _ hacc' c hc

theorem toDigitsCore_ne_nil (f n : Nat) (acc : List Char) :
    Nat.toDigitsCore 10 (f + 1) n acc ≠ [] := by
  induction f generalizing n acc with
  | zero =>
    simp only [Nat.toDigitsCore]
    split <;> simp
  | succ f ih =>
    rw [Nat.toDigitsCore]
    split
    · simp
    · exact ih _ _

theorem toDigitsCore_value (f : Nat) :
    ∀ (n : Nat) (acc : List Char), n < f →
      List.foldl (fun a c => 10 * a + (c.toNat - '0'.toNat)) 0 (Nat.toDigitsCore 10 f n acc)
        = List.foldl (fun a c => 10 * a + (c.toNat - '0'.toNat)) n acc := by
  induction f with
  | zero => intro n acc h; omega
  | succ f ih =>
    intro n acc h
    have hd := digitChar_value (n % 10) (Nat.mod_lt _ (by decide))
    simp only [Nat.toDigitsCore]
    split
    · rename_i h0
      simp only [List.foldl_cons, hd]
      congr 1
      omega
    · rename_i h0
      rw [ih (n / 10) _ (by omega)]
      simp only [List.foldl_cons, hd]
      congr 1
      omega

theorem toDigits_isDigit (n : Nat) : ∀ c, c ∈ Nat.toDigits 10 n → c.isDigit = true :=
  toDigitsCore_isDigit (n + 1) n [] (fun c hc => absurd hc (List.not_mem_nil c))

theorem toDigits_ne_nil (n : Nat) : Nat.toDigits 10 n ≠ [] :=
  toDigitsCore_ne_nil n n []

theorem digitsValue_toDigits (n : Nat) : digitsValue (Nat.toDigits 10 n) = n := by
  simp only [digitsValue, Nat.toDigits]
  rw [toDigitsCore_value (n + 1) n [] (by omega)]
  rfl

theorem takeWhile_digits (ds rest : List Char) (hall : ∀ c, c ∈ ds → c.isDigit = true) :
    (ds ++ '_' :: rest).takeWhile Char.isDigit = ds := by
  induction ds with
  | nil => simp [List.takeWhile]
  | cons x xs ih =>
    have hx : x.isDigit = true := hall x (List.mem_cons_self _ _)
    have hxs : ∀ c, c ∈ xs → c.isDigit = true := fun c hc => hall c (List.mem_cons_of_mem _ hc)
    simp [List.takeWhile, hx, ih hxs]

theorem dropWhile_digits (ds rest : List Char) (hall : ∀ c, c ∈ ds → c.isDigit = true) :
    (ds ++ '_' :: rest).dropWhile Char.isDigit = '_' :: rest := by
  induction ds with
  | nil => simp [List.dropWhile]
  | cons x xs ih =>
    have hx : x.isDigit = true := hall x (List.mem_cons_self _ _)
    have hxs : ∀ c, c ∈ xs → c.isDigit = true := fun c hc => hall c (List.mem_cons_of_mem _ hc)
    simp [List.dropWhile, hx, ih hxs]

theorem stod_digits (ds : List Char) (hne : ds ≠ []) (hall : ∀ c, c ∈ ds → c.isDigit = true) :
    stod (ds ++ ['_']) = some (digitsValue ds : Int) := by
  cases ds with
  | nil => exact absurd rfl hne
  | cons d ds =>
    have hd : d.isDigit = true := hall d (List.mem_cons_self _ _)
    have hminus : d ≠ '-' := fun e => by rw [e] at hd; revert hd; decide
    have hplus : d ≠ '+' := fun e => by rw [e] at hd; revert hd; decide
    have hbody : (match d :: (ds ++ ['_']) with
        | '-' :: t => t
        | '+' :: t => t
        | _ => d :: (ds ++ ['_'])) = d :: (ds ++ ['_']) := by
      split
      · rename_i heq; cases heq; exact absurd rfl hminus
      · rename_i heq; cases heq; exact absurd rfl hplus
      · rfl
    have htake := takeWhile_digits (d :: ds) [] hall
    have hdrop := dropWhile_digits (d :: ds) [] hall
    simp only [List.cons_append] at htake hdrop
    simp only [stod, List.cons_append, hbody, htake, hdrop, List.head?_cons]
    simp [hminus]

theorem stod_minus_digits (ds : List Char) (hne : ds ≠ [])
    (hall : ∀ c, c ∈ ds → c.isDigit = true) :
    stod ('-' :: ds ++ ['_']) = some (-(digitsValue ds : Int)) := by
  have htake := takeWhile_digits ds [] hall
  have hdrop := dropWhile_digits ds [] hall
  simp only [stod, List.cons_append, htake, hdrop, List.head?_cons]
  simp [hne]

theorem stod_fmtInt (z : Int) : stod (fmtInt z ++ ['_']) = some z := by
  by_cases hz : z < 0
  · simp only [fmtInt, if_pos hz]
    rw [stod_minus_digits _ (toDigits_ne_nil _) (toDigits_isDigit _), digitsValue_toDigits]
    congr 1
    omega
  · simp only [fmtInt, if_neg hz]
    rw [stod_digits _ (toDigits_ne_nil _) (toDigits_isDigit _), digitsValue_toDigits]
    congr 1
    omega

theorem underscore_not_mem_fmtInt (z : Int) : '_' ∉ fmtInt z := by
  intro h
  have hdig : ∀ c, c ∈ Nat.toDigits 10 z.natAbs → c ≠ '_' := by
    intro c hc e
    have := toDigits_isDigit _ c hc
    rw [e] at this
    revert this
    decide
  simp only [fmtInt] at h
  split at h
  · rcases List.mem_cons.mp h with h | h
    · revert h; decide
    · exact hdig _ h rfl
  · exact hdig _ h rfl

/-- A name `<movie>/<zmw>/<start>_<end>_<tail>` whose movie and ZMW parts hold no
`/` and whose coordinates are decimal integers in the range of `int` is parsed
to exactly these four parts. -/
theorem parseHeader_isoSeqName (movie zmw tail : List Char) (start end_ : Int)
    (hmovie : '/' ∉ movie) (hzmw : '/' ∉ zmw)
    (hs : -2 ^ 31 ≤ start ∧ start < 2 ^ 31) (he : -2 ^ 31 ≤ end_ ∧ end_ < 2 ^ 31) :
    parseHeader (movie ++ '/' :: (zmw ++ '/' :: (fmtInt start ++ '_' ::
        (fmtInt end_ ++ '_' :: tail))))
      = some (movie, zmw, start, end_) := by
  simp only [parseHeader, scanTo_append '/' movie _ hmovie, scanTo_append '/' zmw _ hzmw,
    scanTo_append '_' (fmtInt start) _ (underscore_not_mem_fmtInt start),
    scanTo_append '_' (fmtInt end_) _ (underscore_not_mem_fmtInt end_), stod_fmtInt,
    Option.some_bind, doubleToInt, if_pos hs, if_pos he]

end TrimPolyA
